import Mathlib

/-!
# Verification of the AeroBot decoding-and-indexing core

Shallow embedding of the core logic of `src/bot.py`:

* the METAR decoder `parse_metar_human` (lines 287-346) and its regular
  expressions `METAR_WIND_RE`, `METAR_TEMP_RE`, `METAR_QNH_RE`,
  `METAR_VIS_RE`, `METAR_CLOUD_RE`;
* the TAF wind-period extractor `parse_taf_wind` (lines 351-374);
* the TAF temperature-extreme extraction inside `generate_temp_plot`
  (lines 524-539);
* the TTL cache `cache_get` / `cache_set` (lines 149-162);
* the geospatial helpers `haversine_km` (lines 226-234) and
  `find_nearby` (lines 236-248);
* the code normalizer `normalize_code_input` (lines 487-495).

Python regular-expression search is embedded by a small combinator
engine over `List Char`.  A matcher returns the list of all possible
(consumed, rest) splits *in backtracking priority order*, so that the
head of the list is exactly the alternative Python's `re` engine
commits to; `re.search` is positional leftmost search, `re.finditer` /
`re.findall` non-overlapping repeated search.  All patterns used by the
source contain no unbounded repetition, so candidate lists are finite
by construction.
-/

namespace AeroBot

/-! ## Regex combinator engine -/

/-- A matcher: all (consumed, rest) splits at the current position, in
Python backtracking priority order. -/
abbrev RxM := List Char → List (List Char × List Char)

/-- Empty pattern: consumes nothing. -/
def rxEps : RxM := fun cs => [([], cs)]

/-- Single character satisfying a Boolean predicate (e.g. a literal
character, or `\d`). -/
def rxPred (p : Char → Bool) : RxM := fun cs =>
  match cs with
  | [] => []
  | c :: rest => if p c then [([c], rest)] else []

/-- A literal character. -/
def rxChar (c : Char) : RxM := rxPred (· = c)

/-- Pattern `\d` : an ASCII digit. -/
def rxDigit : RxM := rxPred Char.isDigit

/-- A literal string. -/
def rxStr : List Char → RxM
  | [], cs => [([], cs)]
  | c :: s, cs =>
    match cs with
    | [] => []
    | c' :: cs' =>
      if c' = c then (rxStr s cs').map (fun p => (c :: p.1, p.2)) else []

/-- Concatenation.  Candidate order is the lexicographic combination of
the two priority orders, exactly as a backtracking engine explores it. -/
def rxSeq (m₁ m₂ : RxM) : RxM := fun cs =>
  (m₁ cs).flatMap (fun p => (m₂ p.2).map (fun q => (p.1 ++ q.1, q.2)))

/-- Alternation `a|b`: the left branch is preferred. -/
def rxAlt (m₁ m₂ : RxM) : RxM := fun cs => m₁ cs ++ m₂ cs

/-- Greedy option `a?`: matching is preferred over skipping. -/
def rxOpt (m : RxM) : RxM := rxAlt m rxEps

/-- Exactly `n` repetitions. -/
def rxRepN (m : RxM) : Nat → RxM
  | 0 => rxEps
  | n + 1 => rxSeq m (rxRepN m n)

/-- Pattern `\d{n}`. -/
def rxDigits (n : Nat) : RxM := rxRepN rxDigit n

/-- Greedy `\d{2,3}`: three digits preferred over two. -/
def rxDigits23 : RxM := rxAlt (rxDigits 3) (rxDigits 2)

/-- Greedy `\d{1,2}`: two digits preferred over one. -/
def rxDigits12 : RxM := rxAlt (rxDigits 2) (rxDigits 1)

/-- Python `re.search`: try the pattern at each position left to right and
commit to the first (highest-priority) alternative at the first
position where the pattern matches; return the consumed text. -/
def rxSearch (m : RxM) : List Char → Option (List Char)
  | [] =>
    match (m []).head? with
    | some p => some p.1
    | none => none
  | c :: rest =>
    match (m (c :: rest)).head? with
    | some p => some p.1
    | none => rxSearch m rest

/-- One step list of `re.finditer`: non-overlapping scan returning each
match together with the text following it.  `fuel` bounds the recursion
(every step consumes at least one character of the scanned text, so
`fuel = length` suffices). -/
def rxFindAux (m : RxM) : Nat → List Char → List (List Char × List Char)
  | 0, _ => []
  | _ + 1, [] => []
  | fuel + 1, c :: rest =>
    match (m (c :: rest)).head? with
    | some p => if p.1 = [] then rxFindAux m fuel rest else p :: rxFindAux m fuel p.2
    | none => rxFindAux m fuel rest

/-- Python `re.finditer`: every non-overlapping match, left to right, paired
with the text that follows it. -/
def rxFindItr (m : RxM) (cs : List Char) : List (List Char × List Char) :=
  rxFindAux m cs.length cs

/-- Python `re.findall` on a pattern, returning whole matches. -/
def rxFindall (m : RxM) (cs : List Char) : List (List Char) :=
  (rxFindItr m cs).map (·.1)

/-! ## Python string helpers -/

/-- Whitespace stripped by Python `str.strip()` (ASCII part; the exotic
Unicode space classes play no role in any claim). -/
def pySpace (c : Char) : Bool :=
  c = ' ' || c = '\t' || c = '\n' || c = '\r' || c = '\x0b' || c = '\x0c' ||
  c = '\x1c' || c = '\x1d' || c = '\x1e' || c = '\x1f' || c = '\x85'

/-- Line-break characters recognised by Python `str.splitlines()`. -/
def pyLineBreak (c : Char) : Bool :=
  c = '\n' || c = '\r' || c = '\x0b' || c = '\x0c' ||
  c = '\x1c' || c = '\x1d' || c = '\x1e' || c = '\x85' ||
  c = '\u2028' || c = '\u2029'

/-- Python `str.strip()`. -/
def pyStrip (cs : List Char) : List Char :=
  ((cs.dropWhile pySpace).reverse.dropWhile pySpace).reverse

/-- Source `raw.splitlines()[0].strip()`, line 308: `none` is the
`IndexError` path (`splitlines` of the empty string is the empty list),
which the surrounding `try`/`except` of `parse_metar_human` absorbs. -/
def metar_first_line? (raw : String) : Option (List Char) :=
  if raw.data = [] then none
  else some (pyStrip (raw.data.takeWhile (fun c => ¬ pyLineBreak c)))

/-- Python `\w` (ASCII part): letters, digits, underscore. -/
def pyWordChar (c : Char) : Bool := c.isAlphanum || c = '_'

/-- Value of a digit string (`int()` on an all-digit token). -/
def digitsVal (cs : List Char) : Nat :=
  cs.foldl (fun n c => 10 * n + (c.toNat - 48)) 0

/-- Decimal digits of a natural number (fueled; `natChars` supplies
enough fuel). -/
def natCharsAux : Nat → Nat → List Char
  | 0, _ => []
  | fuel + 1, n =>
    if n < 10 then [Char.ofNat (48 + n)]
    else natCharsAux fuel (n / 10) ++ [Char.ofNat (48 + n % 10)]

/-- Decimal representation of a natural number, as Python `str(int(...))`
produces for a nonnegative value. -/
def natChars (n : Nat) : List Char := natCharsAux (n + 1) n

/-! ## METAR decoder (`parse_metar_human`, lines 287-346) -/

/-- Source `METAR_WIND_RE = (\d{3}|VRB)(\d{2,3})(G\d{2,3})?KT` (line 287). -/
def metarWindRx : RxM :=
  rxSeq (rxAlt (rxDigits 3) (rxStr ['V', 'R', 'B']))
    (rxSeq rxDigits23
      (rxSeq (rxOpt (rxSeq (rxChar 'G') rxDigits23)) (rxStr ['K', 'T'])))

/-- Pattern `M?\d{2}`, one half of `METAR_TEMP_RE`. -/
def rxSignedTwo : RxM := rxSeq (rxOpt (rxChar 'M')) (rxDigits 2)

/-- Source `METAR_TEMP_RE = ' (M?\d{2})/(M?\d{2})'` (line 288); note the
mandatory leading space. -/
def metarTempRx : RxM :=
  rxSeq (rxChar ' ') (rxSeq rxSignedTwo (rxSeq (rxChar '/') rxSignedTwo))

/-- Source `METAR_QNH_RE = ' Q(\d{4})'` (line 289). -/
def metarQnhRx : RxM := rxSeq (rxChar ' ') (rxSeq (rxChar 'Q') (rxDigits 4))

/-- Source `METAR_VIS_RE = ' (\d{1,2}SM|\d{4}) '` (line 290); the group is
surrounded by mandatory spaces. -/
def metarVisRx : RxM :=
  rxSeq (rxChar ' ')
    (rxSeq (rxAlt (rxSeq rxDigits12 (rxStr ['S', 'M'])) (rxDigits 4))
      (rxChar ' '))

/-- Source `METAR_CLOUD_RE = ' (FEW|SCT|BKN|OVC)\d{3}'` (line 291). -/
def metarCloudRx : RxM :=
  rxSeq (rxChar ' ')
    (rxSeq
      (rxAlt (rxAlt (rxStr ['F', 'E', 'W']) (rxStr ['S', 'C', 'T']))
        (rxAlt (rxStr ['B', 'K', 'N']) (rxStr ['O', 'V', 'C'])))
      (rxDigits 3))

/-- Source `re.search(r'\b(\d{6}Z)\b', first)` (line 310): positional scan
carrying the previous character so that both `\b` assertions are
honoured (`\d{6}Z` is all word characters, so a boundary holds exactly
against a non-word neighbour or the ends of the string). -/
def searchTimeAux (prev : Option Char) : List Char → Option (List Char)
  | [] => none
  | c :: rest =>
    if (match prev with | none => true | some p => ¬ pyWordChar p) then
      match (rxSeq (rxDigits 6) (rxChar 'Z') (c :: rest)).head? with
      | some p =>
        if (match p.2.head? with | none => true | some n => ¬ pyWordChar n) then
          some p.1
        else searchTimeAux (some c) rest
      | none => searchTimeAux (some c) rest
    else searchTimeAux (some c) rest

/-- The observation-time search of line 310. -/
def metarTimeSearch (first : List Char) : Option (List Char) :=
  searchTimeAux none first

/-- Wind search of line 313. -/
def metarWindSearch (first : List Char) : Option (List Char) :=
  rxSearch metarWindRx first

/-- Visibility search of line 319: the source searches `first + " "`. -/
def metarVisSearch (first : List Char) : Option (List Char) :=
  rxSearch metarVisRx (first ++ [' '])

/-- Temperature/dewpoint search of line 328. -/
def metarTempSearch (first : List Char) : Option (List Char) :=
  rxSearch metarTempRx first

/-- QNH search of line 334. -/
def metarQnhSearch (first : List Char) : Option (List Char) :=
  rxSearch metarQnhRx first

/-- Group 1 of a `METAR_VIS_RE` match: the whole match minus the two
surrounding spaces. -/
def visGroup (m : List Char) : List Char := (m.drop 1).dropLast

/-- Group 1 of a `METAR_TEMP_RE` match: after the leading space, the
text before the `/`. -/
def tempGroup1 (m : List Char) : List Char :=
  (m.drop 1).takeWhile (· != '/')

/-- Group 2 of a `METAR_TEMP_RE` match: the text after the `/`. -/
def tempGroup2 (m : List Char) : List Char :=
  (m.drop 1).drop (((m.drop 1).takeWhile (· != '/')).length + 1)

/-- Python `t.replace('M', '-')` on a temperature group. -/
def replaceM (cs : List Char) : List Char :=
  cs.map (fun c => if c = 'M' then '-' else c)

/-- The three groups of a `METAR_WIND_RE` match, recovered from the
match text: direction (3 characters), speed, optional gust digits
(without the leading `G`). -/
def windGroups (m : List Char) : List Char × List Char × Option (List Char) :=
  let dir := m.take 3
  let core := (m.drop 3).take ((m.drop 3).length - 2)
  let speed := core.takeWhile (· != 'G')
  let gust := if speed.length < core.length then some (core.drop (speed.length + 1)) else none
  (dir, speed, gust)

/-- Line 317: `f"{dir_}° {int(speed)} kt" + (f" gust {gust} kt" if gust
else "")`.  The speed goes through `int()` (dropping leading zeros),
the gust digits are kept verbatim. -/
def windDisplay (m : List Char) : List Char :=
  let g := windGroups m
  g.1 ++ ('°' :: ' ' :: natChars (digitsVal g.2.1)) ++ [' ', 'k', 't'] ++
    (match g.2.2 with
     | some gu => (' ' :: 'g' :: 'u' :: 's' :: 't' :: ' ' :: gu) ++ [' ', 'k', 't']
     | none => [])

/-- The decoded METAR record built by `parse_metar_human`.  Every field
is the corresponding entry of the returned dict; `none` is both a
missing key and Python `None`. -/
structure ParsedMetar where
  time : Option String
  wind : Option String
  visibility : Option String
  temp : Option String
  dewpoint : Option String
  qnh : Option String
  clouds : Option String
  raw : String
deriving DecidableEq, Repr

/-- Embedding of `parse_metar_human` (lines 293-346).  The `none` branch of
`metar_first_line?` is the caught `IndexError` on an empty input: the
function then returns the initial all-`None` dict. -/
def parse_metar_human (raw : String) : ParsedMetar :=
  match metar_first_line? raw with
  | none =>
    { time := none, wind := none, visibility := none, temp := none,
      dewpoint := none, qnh := none, clouds := none, raw := raw }
  | some first =>
    let td := metarTempSearch first
    { time := (metarTimeSearch first).map String.mk
      wind := (metarWindSearch first).map (fun m => String.mk (windDisplay m))
      visibility := (metarVisSearch first).map (fun m =>
        let v := visGroup m
        if v = ['9', '9', '9', '9'] ∨ v = ['1', '0', '0', '0', '0'] then "10+ km"
        else String.mk v)
      temp := td.map (fun m => String.mk (replaceM (tempGroup1 m)))
      dewpoint := td.map (fun m => String.mk (replaceM (tempGroup2 m)))
      qnh := (metarQnhSearch first).map (fun m => String.mk (m.drop 2) ++ " hPa")
      clouds :=
        let cgs := (rxFindall metarCloudRx first).map (fun m => (m.drop 1).take 3)
        if cgs = [] then none
        else some (String.mk (List.intercalate [',', ' '] cgs))
      raw := raw }

/-! ## TAF wind-period extractor (`parse_taf_wind`, lines 351-374) -/

/-- The validity-window pattern `(\d{4}/\d{4})` of line 362. -/
def tafWindowRx : RxM := rxSeq (rxDigits 4) (rxSeq (rxChar '/') (rxDigits 4))

/-- The wind-token pattern `(\d{3}V?\d{3})?(\d{3}|VRB)\d{2}(G\d{2})?KT`
of line 366. -/
def tafWindRx : RxM :=
  rxSeq (rxOpt (rxSeq (rxDigits 3) (rxSeq (rxOpt (rxChar 'V')) (rxDigits 3))))
    (rxSeq (rxAlt (rxDigits 3) (rxStr ['V', 'R', 'B']))
      (rxSeq (rxDigits 2)
        (rxSeq (rxOpt (rxSeq (rxChar 'G') (rxDigits 2))) (rxStr ['K', 'T']))))

/-- Pattern `(\d{3}|VRB)\d{2}(G\d{2})?KT`, the tail of the fallback pattern of
line 370. -/
def fmCoreRx : RxM :=
  rxSeq (rxAlt (rxDigits 3) (rxStr ['V', 'R', 'B']))
    (rxSeq (rxDigits 2)
      (rxSeq (rxOpt (rxSeq (rxChar 'G') (rxDigits 2))) (rxStr ['K', 'T'])))

/-- Pattern `FM\d{6}`, the head of the fallback pattern of line 370. -/
def fmDtRx : RxM := rxSeq (rxStr ['F', 'M']) (rxDigits 6)

/-- The lazy gap `.{0,40}?` of line 370: try the wind core after 0 gap
characters first, then extend the gap one (non-newline, as Python `.`)
character at a time up to the budget.  Returns (gap, core match, rest). -/
def fmGapScan : Nat → List Char → List Char → Option (List Char × List Char × List Char)
  | 0, acc, rem =>
    match (fmCoreRx rem).head? with
    | some p => some (acc.reverse, p.1, p.2)
    | none => none
  | b + 1, acc, rem =>
    match (fmCoreRx rem).head? with
    | some p => some (acc.reverse, p.1, p.2)
    | none =>
      match rem with
      | [] => none
      | c :: r => if c = '\n' then none else fmGapScan b (c :: acc) r

/-- Match of `(FM\d{6}).{0,40}?(\d{3}|VRB)\d{2}(G\d{2})?KT` at the
current position, returning the appended pair of line 371 —
`(m.group(1), m.group(2) + m.group(0)[-3:])` — and the rest of the
text. -/
def fmMatchAt (cs : List Char) : Option ((String × String) × List Char) :=
  match (fmDtRx cs).head? with
  | some p =>
    match fmGapScan 40 [] p.2 with
    | some (gap, core, rest) =>
      let whole := p.1 ++ gap ++ core
      some ((String.mk p.1,
             String.mk (core.take 3 ++ whole.drop (whole.length - 3))), rest)
    | none => none
  | none => none

/-- Python `re.finditer` for the fallback pattern (fueled scan as in
`rxFindAux`). -/
def fmFindAux : Nat → List Char → List (String × String)
  | 0, _ => []
  | _ + 1, [] => []
  | fuel + 1, c :: rest =>
    match fmMatchAt (c :: rest) with
    | some (pr, r) => pr :: fmFindAux fuel r
    | none => fmFindAux fuel rest

/-- All pairs contributed by the `FM` fallback loop of lines 370-371. -/
def fmFindItr (cs : List Char) : List (String × String) := fmFindAux cs.length cs

/-- Embedding of `parse_taf_wind` (lines 353-374): the first loop pairs every
`\d{4}/\d{4}` validity window with the first wind token found in the
120 characters following it (`taf[span_end:span_end+120]`); the second
loop appends the `FM` fallback pairs. -/
def parse_taf_wind (taf : String) : List (String × String) :=
  let cs := taf.data
  let out := (rxFindItr tafWindowRx cs).foldl (fun out p =>
    match rxSearch tafWindRx (p.2.take 120) with
    | some m => out ++ [(String.mk p.1, String.mk m)]
    | none => out) []
  (fmFindItr cs).foldl (fun out q => out ++ [q]) out

/-! ## TAF temperature extremes (`generate_temp_plot`, lines 524-539) -/

/-- Pattern `TX(M?\d{1,2})` (line 526). -/
def txRx : RxM := rxSeq (rxStr ['T', 'X']) (rxSeq (rxOpt (rxChar 'M')) rxDigits12)

/-- Pattern `TN(M?\d{1,2})` (line 527). -/
def tnRx : RxM := rxSeq (rxStr ['T', 'N']) (rxSeq (rxOpt (rxChar 'M')) rxDigits12)

/-- Source `re.findall(r'TX(M?\d{1,2})', taf_raw)`: the group (the whole match
minus the two-character `TX` head). -/
def txTokens (taf : String) : List (List Char) :=
  (rxFindall txRx taf.data).map (·.drop 2)

/-- Source `re.findall(r'TN(M?\d{1,2})', taf_raw)`. -/
def tnTokens (taf : String) : List (List Char) :=
  (rxFindall tnRx taf.data).map (·.drop 2)

/-- Source `float(tx.replace('M','-'))` on a `M?\d{1,2}` group: the value is
integral, with a leading `M` denoting negation. -/
def mVal (cs : List Char) : Int :=
  if cs.head? = some 'M' then -(digitsVal (cs.drop 1) : Int) else (digitsVal cs : Int)

/-- Tag of an extracted temperature extreme. -/
inductive TempKind where
  | max
  | min
deriving DecidableEq, Repr

/-- The TAF-derived temperature extremes collected by
`generate_temp_plot` (lines 524-539): all `TX` points (first eight, in
scan order), then all `TN` points (first eight, in scan order).  The
`try`/`except` around `float()` never fires because every extracted
group is of the shape `M?\d{1,2}`. -/
def taf_temp_extremes (taf : String) : List (TempKind × Int) :=
  ((txTokens taf).take 8).map (fun s => (TempKind.max, mVal s)) ++
  ((tnTokens taf).take 8).map (fun s => (TempKind.min, mVal s))

/-! ## Result cache (`cache_get` / `cache_set`, lines 149-162)

The Python `CACHE` dict is modelled as an association list mapping a
key to `(insertedAt, value)`; `time.time()` timestamps are modelled as
integers (only their additive order structure is used by the source).
The `async with CACHE_LOCK` critical section serialises every access,
so the sequential functions below are the whole observable behaviour. -/

/-- The cache state: key ↦ (timestamp, value). -/
abbrev Cache := List (String × Int × String)

/-- Source `CACHE_TTL = 300` (line 83). -/
def CACHE_TTL : Int := 300

/-- Source `del CACHE[key]` (dict deletion). -/
def cacheErase (c : Cache) (k : String) : Cache := c.filter (fun e => e.1 != k)

/-- Embedding of `cache_set` (lines 160-162): `CACHE[key] = (time.time(), value)`. -/
def cache_set (c : Cache) (now : Int) (k v : String) : Cache :=
  (k, now, v) :: cacheErase c k

/-- Embedding of `cache_get` (lines 149-158): return the value if `now - ts <
CACHE_TTL`, otherwise delete the entry and return `None`.  The second
component is the cache state after the call. -/
def cache_get (c : Cache) (now : Int) (k : String) : Option String × Cache :=
  match List.lookup k c with
  | some (ts, v) => if now - ts < CACHE_TTL then (some v, c) else (none, cacheErase c k)
  | none => (none, c)

/-! ## Geospatial helpers (lines 226-248) -/

/-- Source `math.radians`. -/
noncomputable def radians (x : ℝ) : ℝ := x * Real.pi / 180

/-- Source `math.atan2(y, x)` with its usual real-valued convention. -/
noncomputable def pyAtan2 (y x : ℝ) : ℝ :=
  if 0 < x then Real.arctan (y / x)
  else if x < 0 ∧ 0 ≤ y then Real.arctan (y / x) + Real.pi
  else if x < 0 then Real.arctan (y / x) - Real.pi
  else if 0 < y then Real.pi / 2
  else if y < 0 then -(Real.pi / 2)
  else 0

/-- The local `a` of `haversine_km` (line 232):
`sin(dφ/2)**2 + cos(φ1)*cos(φ2)*sin(dλ/2)**2`. -/
noncomputable def hav_a (lat1 lon1 lat2 lon2 : ℝ) : ℝ :=
  Real.sin (radians (lat2 - lat1) / 2) ^ 2 +
    Real.cos (radians lat1) * Real.cos (radians lat2) *
      Real.sin (radians (lon2 - lon1) / 2) ^ 2

/-- Embedding of `haversine_km` (lines 226-234): haversine formula on a spherical
Earth of radius 6371 km, degree inputs converted to radians;
`c = 2*atan2(sqrt(a), sqrt(1-a))` and the result is `R*c`. -/
noncomputable def haversine_km (lat1 lon1 lat2 lon2 : ℝ) : ℝ :=
  6371 * (2 * pyAtan2 (Real.sqrt (hav_a lat1 lon1 lat2 lon2))
    (Real.sqrt (1 - hav_a lat1 lon1 lat2 lon2)))

/-- One row of the in-memory `AIRPORTS` index (built by
`load_airports`, lines 189-197). -/
structure Airport where
  ident : String
  name : String
  iata : String
  icao : String
  lat : ℝ
  lon : ℝ
  country : String

/-- Python slice `l[:n]` for an arbitrary (possibly negative) `int` n. -/
def pySliceTo {α : Type} (n : Int) (l : List α) : List α :=
  if 0 ≤ n then l.take n.toNat else l.take (l.length - (-n).toNat)

/-- Boolean `≤` on the reals (classical; the source compares floats). -/
noncomputable def rleb (x y : ℝ) : Bool := @decide (x ≤ y) (Classical.propDecidable _)

/-- Embedding of `find_nearby` (lines 236-248): annotate every record with its
haversine distance, keep those within `limit_km`, sort by distance with
Python's stable `list.sort`, and apply the slice `out[:max_results]`.
The `try`/`except` around the distance computation is dead over the
reals, and the `if not AIRPORTS` guard is the empty-list branch. -/
noncomputable def find_nearby (airports : List Airport) (lat lon : ℝ)
    (limit_km : ℝ) (max_results : Int) : List (ℝ × Airport) :=
  match airports with
  | [] => []
  | _ :: _ =>
    let out := (airports.map (fun a => (haversine_km lat lon a.lat a.lon, a))).filter
      (fun p => rleb p.1 limit_km)
    pySliceTo max_results (out.mergeSort (fun p q => rleb p.1 q.1))

/-! ## Code normalization (`normalize_code_input`, lines 487-495) -/

/-- Embedding of `normalize_code_input` (lines 487-495), parameterised by the
`IATA_MAP` lookup (`dict.get`).  `q.strip().upper()`, then: a
three-character result is looked up in the map and the mapped ICAO is
returned when the lookup produces a truthy (non-empty) string; in every
other case the stripped, uppercased input itself is returned. -/
def normalize_code_input (iata_map : String → Option String) (q : String) : String :=
  let qn := String.mk ((pyStrip q.data).map Char.toUpper)
  if qn.length = 3 then
    match iata_map qn with
    | some ic => if ic = "" then qn else ic
    | none => qn
  else qn

/-- Signed integer denoted by a decimal string with an optional leading
minus sign (used to state what the decoded temperature strings mean). -/
def signedVal (cs : List Char) : Int :=
  if cs.head? = some '-' then -(digitsVal (cs.drop 1) : Int) else (digitsVal cs : Int)

/-- Boolean equality on the reals (classical), used only to state the
stability of the sort in `find_nearby`. -/
noncomputable def reqb (x y : ℝ) : Bool := @decide (x = y) (Classical.propDecidable _)

/-- A concrete airport record at the origin. -/
noncomputable def apAlpha : Airport := ⟨"A1", "Alpha", "", "", 0, 0, ""⟩

/-- A second concrete airport record at the origin. -/
noncomputable def apBravo : Airport := ⟨"B1", "Bravo", "", "", 0, 0, ""⟩

/-! ## Engine lemmas

Membership characterizations of the combinators (what a candidate split
looks like), the invariant that a candidate's consumed text followed by
its rest is the input, and the two facts about positional search needed
by the claims: a found match occurs in the text, and a text containing
a match makes the search succeed. -/

theorem headq_mem {α : Type} {l : List α} {a : α} (h : l.head? = some a) : a ∈ l := by
  cases l with
  | nil => simp at h
  | cons x xs => simp at h; simp [h]

theorem mem_rxEps {cs : List Char} {q : List Char × List Char} :
    q ∈ rxEps cs ↔ q = ([], cs) := by
  simp [rxEps]

theorem mem_rxPred {p : Char → Bool} {cs : List Char} {q : List Char × List Char} :
    q ∈ rxPred p cs ↔ ∃ c rest, cs = c :: rest ∧ p c = true ∧ q = ([c], rest) := by
  cases cs with
  | nil => simp [rxPred]
  | cons c rest =>
    constructor
    · intro hq
      by_cases h : p c
      · refine ⟨c, rest, rfl, h, ?_⟩
        simp [rxPred, h] at hq
        exact hq
      · exfalso; simp [rxPred, h] at hq
    · rintro ⟨c₁, r₁, heq, hc, rfl⟩
      cases heq
      simp [rxPred, hc]

theorem mem_rxChar {c₀ : Char} {cs : List Char} {q : List Char × List Char} :
    q ∈ rxChar c₀ cs ↔ cs = c₀ :: q.2 ∧ q.1 = [c₀] := by
  constructor
  · intro h
    rcases mem_rxPred.mp h with ⟨c, rest, rfl, hc, rfl⟩
    simp only [decide_eq_true_eq] at hc
    subst hc; exact ⟨rfl, rfl⟩
  · rintro ⟨h₁, h₂⟩
    refine mem_rxPred.mpr ⟨c₀, q.2, h₁, by simp, ?_⟩
    rw [← h₂]

theorem mem_rxStr {s cs : List Char} {q : List Char × List Char} :
    q ∈ rxStr s cs ↔ q.1 = s ∧ cs = s ++ q.2 := by
  induction s generalizing cs q with
  | nil =>
    simp only [rxStr, List.mem_singleton, List.nil_append]
    constructor
    · rintro rfl; exact ⟨rfl, rfl⟩
    · rintro ⟨h₁, h₂⟩
      rw [Prod.ext_iff]; exact ⟨h₁, h₂.symm⟩
  | cons c s ih =>
    cases cs with
    | nil =>
      simp only [rxStr, List.not_mem_nil, false_iff, not_and]
      intro _ h
      exact absurd h (by simp)
    | cons c' cs' =>
      constructor
      · intro hq
        by_cases h : c' = c
        · subst h
          simp only [rxStr, if_true, List.mem_map] at hq
          rcases hq with ⟨p, hp, rfl⟩
          rcases ih.mp hp with ⟨h₁, h₂⟩
          exact ⟨by rw [h₁], by rw [List.cons_append, ← h₂]⟩
        · simp [rxStr, h] at hq
      · rintro ⟨h₁, h₂⟩
        have hc : c' = c := by
          have := congrArg List.head? h₂
          simpa using this
        subst hc
        simp only [rxStr, if_true, List.mem_map]
        refine ⟨(s, q.2), ih.mpr ⟨rfl, ?_⟩, ?_⟩
        · have := congrArg List.tail h₂
          simpa using this
        · rw [Prod.ext_iff]
          constructor
          · simp [h₁]
          · rfl

theorem mem_rxSeq {m₁ m₂ : RxM} {cs : List Char} {q : List Char × List Char} :
    q ∈ rxSeq m₁ m₂ cs ↔
      ∃ p₁, p₁ ∈ m₁ cs ∧ ∃ p₂, p₂ ∈ m₂ p₁.2 ∧ q = (p₁.1 ++ p₂.1, p₂.2) := by
  simp only [rxSeq, List.mem_flatMap, List.mem_map]
  constructor
  · rintro ⟨p₁, h₁, p₂, h₂, rfl⟩
    exact ⟨p₁, h₁, p₂, h₂, rfl⟩
  · rintro ⟨p₁, h₁, p₂, h₂, rfl⟩
    exact ⟨p₁, h₁, p₂, h₂, rfl⟩

theorem mem_rxAlt {m₁ m₂ : RxM} {cs : List Char} {q : List Char × List Char} :
    q ∈ rxAlt m₁ m₂ cs ↔ q ∈ m₁ cs ∨ q ∈ m₂ cs := by
  simp [rxAlt]

theorem mem_rxOpt {m : RxM} {cs : List Char} {q : List Char × List Char} :
    q ∈ rxOpt m cs ↔ q ∈ m cs ∨ q = ([], cs) := by
  simp [rxOpt, mem_rxAlt, mem_rxEps]

theorem mem_rxDigits {n : Nat} {cs : List Char} {q : List Char × List Char} :
    q ∈ rxDigits n cs ↔
      q.1.length = n ∧ (∀ c ∈ q.1, c.isDigit) ∧ cs = q.1 ++ q.2 := by
  induction n generalizing cs q with
  | zero =>
    rw [rxDigits, rxRepN, mem_rxEps]
    constructor
    · rintro rfl; simp
    · rintro ⟨h₁, _, h₂⟩
      rw [List.length_eq_zero] at h₁
      rw [Prod.ext_iff]
      refine ⟨h₁, ?_⟩
      rw [h₂, h₁, List.nil_append]
  | succ n ih =>
    rw [rxDigits, rxRepN, mem_rxSeq]
    constructor
    · rintro ⟨p₁, h₁, p₂, h₂, rfl⟩
      rcases mem_rxPred.mp h₁ with ⟨c, rest, rfl, hc, rfl⟩
      rcases ih.mp h₂ with ⟨hl, hd, hcs⟩
      refine ⟨by simp [hl], ?_, by simp; exact hcs⟩
      intro x hx
      rcases List.mem_cons.mp hx with rfl | hx
      · exact hc
      · exact hd x hx
    · rintro ⟨hl, hd, hcs⟩
      cases hq : q.1 with
      | nil => rw [hq] at hl; simp at hl
      | cons c t =>
        rw [hq] at hl hd hcs
        refine ⟨([c], t ++ q.2), ?_, (t, q.2), ?_, ?_⟩
        · exact mem_rxPred.mpr ⟨c, t ++ q.2, by simp [hcs], hd c (by simp), rfl⟩
        · exact ih.mpr ⟨by simpa using hl, fun x hx => hd x (by simp [hx]), rfl⟩
        · rw [Prod.ext_iff]; exact ⟨by simp [hq], rfl⟩

/-- The consumed text followed by the rest of a candidate reassembles
the input. -/
def RxGood (m : RxM) : Prop := ∀ cs q, q ∈ m cs → cs = q.1 ++ q.2

theorem rxGood_eps : RxGood rxEps := by
  intro cs q h
  rw [mem_rxEps] at h
  subst h; rfl

theorem rxGood_pred (p : Char → Bool) : RxGood (rxPred p) := by
  intro cs q h
  rcases mem_rxPred.mp h with ⟨c, rest, rfl, _, rfl⟩
  rfl

theorem rxGood_char (c : Char) : RxGood (rxChar c) := rxGood_pred _

theorem rxGood_digit : RxGood rxDigit := rxGood_pred _

theorem rxGood_str (s : List Char) : RxGood (rxStr s) := by
  intro cs q h
  rcases mem_rxStr.mp h with ⟨h₁, h₂⟩
  rw [h₂, h₁]

theorem rxGood_seq {m₁ m₂ : RxM} (h₁ : RxGood m₁) (h₂ : RxGood m₂) :
    RxGood (rxSeq m₁ m₂) := by
  intro cs q h
  rcases mem_rxSeq.mp h with ⟨p₁, hp₁, p₂, hp₂, rfl⟩
  rw [h₁ _ _ hp₁, h₂ _ _ hp₂]
  simp

theorem rxGood_alt {m₁ m₂ : RxM} (h₁ : RxGood m₁) (h₂ : RxGood m₂) :
    RxGood (rxAlt m₁ m₂) := by
  intro cs q h
  rcases mem_rxAlt.mp h with h | h
  · exact h₁ _ _ h
  · exact h₂ _ _ h

theorem rxGood_opt {m : RxM} (h : RxGood m) : RxGood (rxOpt m) :=
  rxGood_alt h rxGood_eps

theorem rxGood_repN {m : RxM} (h : RxGood m) : ∀ n, RxGood (rxRepN m n)
  | 0 => rxGood_eps
  | n + 1 => rxGood_seq h (rxGood_repN h n)

theorem rxGood_digits (n : Nat) : RxGood (rxDigits n) := rxGood_repN rxGood_digit n

theorem rxGood_digits23 : RxGood rxDigits23 :=
  rxGood_alt (rxGood_digits 3) (rxGood_digits 2)

theorem rxGood_digits12 : RxGood rxDigits12 :=
  rxGood_alt (rxGood_digits 2) (rxGood_digits 1)

theorem rxGood_metarTempRx : RxGood metarTempRx :=
  rxGood_seq (rxGood_char ' ')
    (rxGood_seq (rxGood_seq (rxGood_opt (rxGood_char 'M')) (rxGood_digits 2))
      (rxGood_seq (rxGood_char '/')
        (rxGood_seq (rxGood_opt (rxGood_char 'M')) (rxGood_digits 2))))

theorem rxGood_metarVisRx : RxGood metarVisRx :=
  rxGood_seq (rxGood_char ' ')
    (rxGood_seq
      (rxGood_alt (rxGood_seq rxGood_digits12 (rxGood_str ['S', 'M']))
        (rxGood_digits 4))
      (rxGood_char ' '))

theorem rxGood_tafWindowRx : RxGood tafWindowRx :=
  rxGood_seq (rxGood_digits 4) (rxGood_seq (rxGood_char '/') (rxGood_digits 4))

theorem rxGood_tafWindRx : RxGood tafWindRx :=
  rxGood_seq
    (rxGood_opt (rxGood_seq (rxGood_digits 3)
      (rxGood_seq (rxGood_opt (rxGood_char 'V')) (rxGood_digits 3))))
    (rxGood_seq (rxGood_alt (rxGood_digits 3) (rxGood_str ['V', 'R', 'B']))
      (rxGood_seq (rxGood_digits 2)
        (rxGood_seq (rxGood_opt (rxGood_seq (rxGood_char 'G') (rxGood_digits 2)))
          (rxGood_str ['K', 'T']))))

theorem rxGood_txRx : RxGood txRx :=
  rxGood_seq (rxGood_str ['T', 'X'])
    (rxGood_seq (rxGood_opt (rxGood_char 'M')) rxGood_digits12)

theorem rxGood_tnRx : RxGood tnRx :=
  rxGood_seq (rxGood_str ['T', 'N'])
    (rxGood_seq (rxGood_opt (rxGood_char 'M')) rxGood_digits12)

/-- A successful `re.search` means: the text splits as `pre ++ tail`
and the pattern produced the found match, with some rest, at the start
of `tail`. -/
theorem rxSearch_some_mem {m : RxM} {cs v : List Char}
    (h : rxSearch m cs = some v) :
    ∃ pre tail rest, cs = pre ++ tail ∧ (v, rest) ∈ m tail := by
  induction cs with
  | nil =>
    rw [rxSearch] at h
    cases hh : (m []).head? with
    | some p =>
      rw [hh] at h
      cases h
      exact ⟨[], [], p.2, rfl, headq_mem hh⟩
    | none => rw [hh] at h; cases h
  | cons c rest ih =>
    rw [rxSearch] at h
    cases hh : (m (c :: rest)).head? with
    | some p =>
      rw [hh] at h
      cases h
      exact ⟨[], c :: rest, p.2, rfl, headq_mem hh⟩
    | none =>
      rw [hh] at h
      rcases ih h with ⟨pre, tail, r, hsplit, hmem⟩
      exact ⟨c :: pre, tail, r, by rw [List.cons_append, hsplit], hmem⟩

/-- If the pattern matches at the start of some suffix of the text then
`re.search` succeeds. -/
theorem rxSearch_isSome_append (m : RxM) (pre tail : List Char)
    (h : m tail ≠ []) : (rxSearch m (pre ++ tail)).isSome := by
  induction pre with
  | nil =>
    simp only [List.nil_append]
    cases tail with
    | nil =>
      rw [rxSearch]
      cases hh : (m []).head? with
      | some p => simp
      | none => exact absurd (List.head?_eq_none_iff.mp hh) h
    | cons c rest =>
      rw [rxSearch]
      cases hh : (m (c :: rest)).head? with
      | some p => simp
      | none => exact absurd (List.head?_eq_none_iff.mp hh) h
  | cons c pre ih =>
    rw [List.cons_append, rxSearch]
    cases hh : (m (c :: (pre ++ tail))).head? with
    | some p => simp
    | none => exact ih

/-- Every match produced by `re.finditer` arises from the pattern
matching at the start of a suffix of the text. -/
theorem rxFindAux_mem {m : RxM} (hm : RxGood m) :
    ∀ {fuel : Nat} {cs : List Char} {q : List Char × List Char},
      q ∈ rxFindAux m fuel cs →
      ∃ pre, cs = pre ++ (q.1 ++ q.2) ∧ (q.1, q.2) ∈ m (q.1 ++ q.2) := by
  intro fuel
  induction fuel with
  | zero => intro cs q h; simp [rxFindAux] at h
  | succ fuel ih =>
    intro cs q h
    cases cs with
    | nil => simp [rxFindAux] at h
    | cons c rest =>
      rw [rxFindAux] at h
      cases hh : (m (c :: rest)).head? with
      | some p =>
        rw [hh] at h
        have hp : p ∈ m (c :: rest) := headq_mem hh
        have hcs : (c :: rest) = p.1 ++ p.2 := hm _ _ hp
        have h : q ∈ (if p.1 = [] then rxFindAux m fuel rest
            else p :: rxFindAux m fuel p.2) := h
        by_cases he : p.1 = []
        · rw [if_pos he] at h
          rcases ih h with ⟨pre, hsplit, hmem⟩
          exact ⟨c :: pre, by rw [List.cons_append, hsplit], hmem⟩
        · rw [if_neg he] at h
          rcases List.mem_cons.mp h with rfl | h
          · exact ⟨[], by rw [List.nil_append]; exact hcs, by rw [← hcs]; exact hp⟩
          · rcases ih h with ⟨pre, hsplit, hmem⟩
            refine ⟨p.1 ++ pre, ?_, hmem⟩
            rw [hcs, hsplit, List.append_assoc]
      | none =>
        rw [hh] at h
        rcases ih h with ⟨pre, hsplit, hmem⟩
        exact ⟨c :: pre, by rw [List.cons_append, hsplit], hmem⟩

/-- The `rxFindItr` version of `rxFindAux_mem`. -/
theorem rxFindItr_mem {m : RxM} (hm : RxGood m) {cs : List Char}
    {q : List Char × List Char} (h : q ∈ rxFindItr m cs) :
    ∃ pre, cs = pre ++ (q.1 ++ q.2) ∧ (q.1, q.2) ∈ m (q.1 ++ q.2) :=
  rxFindAux_mem hm h

/-! ## Shape lemmas for the patterns used by the claims -/

/-- Shape of an `M?\d{2}` group. -/
def signedTwoShape (t : List Char) : Prop :=
  ∃ a b, a.isDigit ∧ b.isDigit ∧ (t = [a, b] ∨ t = ['M', a, b])

theorem mem_rxSignedTwo {cs : List Char} {q : List Char × List Char} :
    q ∈ rxSignedTwo cs ↔ signedTwoShape q.1 ∧ cs = q.1 ++ q.2 := by
  rw [rxSignedTwo, mem_rxSeq]
  constructor
  · rintro ⟨p₁, h₁, p₂, h₂, rfl⟩
    rcases mem_rxDigits.mp h₂ with ⟨hl, hd, hcs⟩
    rcases List.length_eq_two.mp hl with ⟨a, b, hab⟩
    rcases mem_rxOpt.mp h₁ with hM | rfl
    · rcases mem_rxChar.mp hM with ⟨hcs₁, he₁⟩
      refine ⟨⟨a, b, hd a (by simp [hab]), hd b (by simp [hab]), Or.inr (by simp [he₁, hab])⟩, ?_⟩
      rw [hcs₁, he₁]
      simp [← hcs]
    · refine ⟨⟨a, b, hd a (by simp [hab]), hd b (by simp [hab]), Or.inl (by simp [hab])⟩, ?_⟩
      simp [← hcs]
  · rintro ⟨⟨a, b, ha, hb, ht⟩, rfl⟩
    rcases ht with ht | ht
    · refine ⟨([], q.1 ++ q.2), mem_rxOpt.mpr (Or.inr rfl), (q.1, q.2), ?_, by simp⟩
      refine mem_rxDigits.mpr ⟨by simp [ht], ?_, rfl⟩
      intro c hc
      rw [ht] at hc
      simp only [List.mem_cons, List.not_mem_nil, or_false] at hc
      rcases hc with rfl | rfl
      · exact ha
      · exact hb
    · refine ⟨(['M'], a :: b :: q.2),
        mem_rxOpt.mpr (Or.inl (mem_rxChar.mpr ⟨by simp [ht], rfl⟩)),
        ([a, b], q.2), ?_, ?_⟩
      · refine mem_rxDigits.mpr ⟨rfl, ?_, rfl⟩
        intro c hc
        simp only [List.mem_cons, List.not_mem_nil, or_false] at hc
        rcases hc with rfl | rfl
        · exact ha
        · exact hb
      · rw [Prod.ext_iff]
        exact ⟨by simp [ht], rfl⟩

theorem mem_metarTempRx {cs : List Char} {q : List Char × List Char} :
    q ∈ metarTempRx cs ↔
      ∃ t d, signedTwoShape t ∧ signedTwoShape d ∧
        q.1 = ' ' :: (t ++ '/' :: d) ∧ cs = q.1 ++ q.2 := by
  rw [metarTempRx, mem_rxSeq]
  constructor
  · rintro ⟨p₁, h₁, p₂, h₂, rfl⟩
    rcases mem_rxChar.mp h₁ with ⟨hcs₁, he₁⟩
    rw [mem_rxSeq] at h₂
    rcases h₂ with ⟨pt, hpt, p₃, h₃, rfl⟩
    rcases mem_rxSignedTwo.mp hpt with ⟨hts, htcs⟩
    rw [mem_rxSeq] at h₃
    rcases h₃ with ⟨ps, hps, pd, hpd, rfl⟩
    rcases mem_rxChar.mp hps with ⟨hcs₂, he₂⟩
    rcases mem_rxSignedTwo.mp hpd with ⟨hds, hdcs⟩
    refine ⟨pt.1, pd.1, hts, hds, ?_, ?_⟩
    · simp [he₁, he₂]
    · rw [hcs₁, he₁]
      simp only [List.cons_append, List.nil_append, List.cons.injEq, true_and]
      rw [htcs, hcs₂, he₂, hdcs]
      simp
  · rintro ⟨t, d, hts, hds, hq, rfl⟩
    refine ⟨([' '], t ++ '/' :: d ++ q.2), mem_rxChar.mpr ⟨?_, rfl⟩,
      (t ++ '/' :: d, q.2), ?_, ?_⟩
    · rw [hq]; simp
    · rw [mem_rxSeq]
      refine ⟨(t, '/' :: d ++ q.2), mem_rxSignedTwo.mpr ⟨hts, by simp⟩,
        ('/' :: d, q.2), ?_, by simp⟩
      rw [mem_rxSeq]
      refine ⟨(['/'], d ++ q.2), mem_rxChar.mpr ⟨rfl, rfl⟩,
        (d, q.2), mem_rxSignedTwo.mpr ⟨hds, rfl⟩, by simp⟩
    · rw [Prod.ext_iff]
      exact ⟨by rw [hq]; simp, rfl⟩

theorem digit_ne_slash {c : Char} (h : c.isDigit) : c ≠ '/' := by
  intro he
  subst he
  exact absurd h (by decide)

theorem signedTwoShape_ne_slash {t : List Char} (h : signedTwoShape t) :
    ∀ c ∈ t, c ≠ '/' := by
  rcases h with ⟨a, b, ha, hb, ht | ht⟩ <;> subst ht <;> intro c hc <;>
    simp only [List.mem_cons, List.not_mem_nil, or_false] at hc
  · rcases hc with rfl | rfl
    · exact digit_ne_slash ha
    · exact digit_ne_slash hb
  · rcases hc with rfl | rfl | rfl
    · decide
    · exact digit_ne_slash ha
    · exact digit_ne_slash hb

theorem takeWhile_until_slash (t d : List Char) (h : ∀ c ∈ t, c ≠ '/') :
    (t ++ '/' :: d).takeWhile (· != '/') = t := by
  induction t with
  | nil => simp
  | cons c t ih =>
    have hc : (c != '/') = true := bne_iff_ne.mpr (h c (by simp))
    simp only [List.cons_append, List.takeWhile_cons, hc, if_true]
    rw [ih (fun x hx => h x (by simp [hx]))]

theorem drop_after_slash (t d : List Char) :
    (t ++ '/' :: d).drop (t.length + 1) = d := by
  have : t ++ '/' :: d = (t ++ ['/']) ++ d := by simp
  rw [this]
  have hl : t.length + 1 = (t ++ ['/']).length := by simp
  rw [hl, List.drop_left]

theorem tempGroup1_eq {t d : List Char} (h : ∀ c ∈ t, c ≠ '/') :
    tempGroup1 (' ' :: (t ++ '/' :: d)) = t := by
  simp only [tempGroup1, List.drop_succ_cons, List.drop_zero]
  exact takeWhile_until_slash t d h

theorem tempGroup2_eq {t d : List Char} (h : ∀ c ∈ t, c ≠ '/') :
    tempGroup2 (' ' :: (t ++ '/' :: d)) = d := by
  simp only [tempGroup2, List.drop_succ_cons, List.drop_zero]
  rw [takeWhile_until_slash t d h]
  exact drop_after_slash t d

/-- Shape of the `METAR_VIS_RE` group: a 1-2 digit value followed by
`SM`, or a bare 4-digit group. -/
def visTokenShape (g : List Char) : Prop :=
  (∃ ds, (ds.length = 1 ∨ ds.length = 2) ∧ (∀ c ∈ ds, c.isDigit) ∧ g = ds ++ ['S', 'M']) ∨
  (g.length = 4 ∧ ∀ c ∈ g, c.isDigit)

theorem mem_rxDigits12 {cs : List Char} {q : List Char × List Char} :
    q ∈ rxDigits12 cs ↔
      (q.1.length = 1 ∨ q.1.length = 2) ∧ (∀ c ∈ q.1, c.isDigit) ∧ cs = q.1 ++ q.2 := by
  rw [rxDigits12, mem_rxAlt, mem_rxDigits, mem_rxDigits]
  constructor
  · rintro (⟨h₁, h₂, h₃⟩ | ⟨h₁, h₂, h₃⟩)
    · exact ⟨Or.inr h₁, h₂, h₃⟩
    · exact ⟨Or.inl h₁, h₂, h₃⟩
  · rintro ⟨h₁ | h₁, h₂, h₃⟩
    · exact Or.inr ⟨h₁, h₂, h₃⟩
    · exact Or.inl ⟨h₁, h₂, h₃⟩

theorem mem_metarVisRx {cs : List Char} {q : List Char × List Char} :
    q ∈ metarVisRx cs ↔
      ∃ g, visTokenShape g ∧ q.1 = ' ' :: (g ++ [' ']) ∧ cs = q.1 ++ q.2 := by
  rw [metarVisRx, mem_rxSeq]
  constructor
  · rintro ⟨p₁, h₁, p₂, h₂, rfl⟩
    rcases mem_rxChar.mp h₁ with ⟨hcs₁, he₁⟩
    rw [mem_rxSeq] at h₂
    rcases h₂ with ⟨pg, hpg, pe, hpe, rfl⟩
    rcases mem_rxChar.mp hpe with ⟨hcs₂, he₂⟩
    have hshape : visTokenShape pg.1 ∧ p₁.2 = pg.1 ++ pg.2 := by
      rcases mem_rxAlt.mp hpg with hsm | h4
      · rw [mem_rxSeq] at hsm
        rcases hsm with ⟨pd, hpd, ps, hps, hpg'⟩
        rcases mem_rxDigits12.mp hpd with ⟨hl, hd, hcs'⟩
        rcases mem_rxStr.mp hps with ⟨hs₁, hs₂⟩
        constructor
        · left
          refine ⟨pd.1, hl, hd, ?_⟩
          rw [hpg', hs₁]
        · rw [hpg']
          simp only
          rw [hcs', hs₂, hs₁]
          simp
      · rcases mem_rxDigits.mp h4 with ⟨hl, hd, hcs'⟩
        exact ⟨Or.inr ⟨hl, hd⟩, hcs'⟩
    refine ⟨pg.1, hshape.1, ?_, ?_⟩
    · simp [he₁, he₂]
    · rw [hcs₁, he₁, hshape.2, hcs₂, he₂]
      simp
  · rintro ⟨g, hg, hq, rfl⟩
    refine ⟨([' '], g ++ [' '] ++ q.2), mem_rxChar.mpr ⟨by rw [hq]; simp, rfl⟩,
      (g ++ [' '], q.2), ?_, ?_⟩
    · rw [mem_rxSeq]
      refine ⟨(g, ' ' :: q.2), ?_, ([' '], q.2), mem_rxChar.mpr ⟨rfl, rfl⟩, by simp⟩
      rcases hg with ⟨ds, hl, hd, rfl⟩ | ⟨hl, hd⟩
      · exact mem_rxAlt.mpr (Or.inl (mem_rxSeq.mpr
          ⟨(ds, 'S' :: 'M' :: ' ' :: q.2), mem_rxDigits12.mpr ⟨hl, hd, by simp⟩,
            (['S', 'M'], ' ' :: q.2), mem_rxStr.mpr ⟨rfl, rfl⟩, by simp⟩))
      · exact mem_rxAlt.mpr (Or.inr (mem_rxDigits.mpr ⟨hl, hd, by simp⟩))
    · rw [Prod.ext_iff]
      exact ⟨by rw [hq]; simp, rfl⟩

theorem visGroup_eq (g : List Char) : visGroup (' ' :: (g ++ [' '])) = g := by
  simp only [visGroup, List.drop_succ_cons, List.drop_zero]
  exact List.dropLast_concat

/-- A `visTokenShape` group has at most four characters; in particular
it is never the five-character string `10000`. -/
theorem visTokenShape_length_le {g : List Char} (h : visTokenShape g) :
    g.length ≤ 4 := by
  rcases h with ⟨ds, hl, _, rfl⟩ | ⟨hl, _⟩
  · rcases hl with hl | hl <;> simp [hl]
  · simp [hl]

/-- Shape of a `TX(M?\d{1,2})` / `TN(M?\d{1,2})` group. -/
def extremeGroupShape (s : List Char) : Prop :=
  ∃ ds, (ds.length = 1 ∨ ds.length = 2) ∧ (∀ c ∈ ds, c.isDigit) ∧ (s = ds ∨ s = 'M' :: ds)

theorem optM_digits12_shape {cs : List Char} {q : List Char × List Char}
    (h : q ∈ rxSeq (rxOpt (rxChar 'M')) rxDigits12 cs) :
    extremeGroupShape q.1 ∧ cs = q.1 ++ q.2 := by
  rcases mem_rxSeq.mp h with ⟨p₁, h₁, p₂, h₂, rfl⟩
  rcases mem_rxDigits12.mp h₂ with ⟨hl, hd, hcs⟩
  rcases mem_rxOpt.mp h₁ with hM | rfl
  · rcases mem_rxChar.mp hM with ⟨hcs₁, he₁⟩
    constructor
    · exact ⟨p₂.1, hl, hd, Or.inr (by rw [he₁]; rfl)⟩
    · rw [hcs₁, he₁, hcs]
      simp
  · constructor
    · exact ⟨p₂.1, hl, hd, Or.inl (by simp)⟩
    · simpa using hcs

theorem txRx_shape {cs : List Char} {q : List Char × List Char} (h : q ∈ txRx cs) :
    ∃ s, extremeGroupShape s ∧ q.1 = 'T' :: 'X' :: s ∧ cs = q.1 ++ q.2 := by
  rcases mem_rxSeq.mp h with ⟨p₁, h₁, p₂, h₂, rfl⟩
  rcases mem_rxStr.mp h₁ with ⟨he₁, hcs₁⟩
  rcases optM_digits12_shape h₂ with ⟨hs, hcs₂⟩
  refine ⟨p₂.1, hs, by rw [he₁]; rfl, ?_⟩
  rw [hcs₁, he₁, hcs₂]
  simp

theorem tnRx_shape {cs : List Char} {q : List Char × List Char} (h : q ∈ tnRx cs) :
    ∃ s, extremeGroupShape s ∧ q.1 = 'T' :: 'N' :: s ∧ cs = q.1 ++ q.2 := by
  rcases mem_rxSeq.mp h with ⟨p₁, h₁, p₂, h₂, rfl⟩
  rcases mem_rxStr.mp h₁ with ⟨he₁, hcs₁⟩
  rcases optM_digits12_shape h₂ with ⟨hs, hcs₂⟩
  refine ⟨p₂.1, hs, by rw [he₁]; rfl, ?_⟩
  rw [hcs₁, he₁, hcs₂]
  simp

theorem tafWindowRx_shape {cs : List Char} {q : List Char × List Char}
    (h : q ∈ tafWindowRx cs) :
    (∃ a b, a.length = 4 ∧ b.length = 4 ∧ (∀ c ∈ a, c.isDigit) ∧
      (∀ c ∈ b, c.isDigit) ∧ q.1 = a ++ '/' :: b) ∧ cs = q.1 ++ q.2 := by
  rcases mem_rxSeq.mp h with ⟨p₁, h₁, p₂, h₂, rfl⟩
  rcases mem_rxDigits.mp h₁ with ⟨hl₁, hd₁, hcs₁⟩
  rcases mem_rxSeq.mp h₂ with ⟨ps, hps, pb, hpb, rfl⟩
  rcases mem_rxChar.mp hps with ⟨hcs₂, he₂⟩
  rcases mem_rxDigits.mp hpb with ⟨hl₂, hd₂, hcs₃⟩
  constructor
  · exact ⟨p₁.1, pb.1, hl₁, hl₂, hd₁, hd₂, by rw [he₂]; simp⟩
  · rw [hcs₁, hcs₂, he₂, hcs₃]
    simp

/-! ## Fold characterizations for `parse_taf_wind` -/

theorem windowFold_eq (l : List (List Char × List Char))
    (init : List (String × String)) :
    l.foldl (fun out p =>
      match rxSearch tafWindRx (p.2.take 120) with
      | some m => out ++ [(String.mk p.1, String.mk m)]
      | none => out) init
    = init ++ l.filterMap (fun p => (rxSearch tafWindRx (p.2.take 120)).map
        (fun m => (String.mk p.1, String.mk m))) := by
  induction l generalizing init with
  | nil => simp
  | cons p l ih =>
    simp only [List.foldl_cons, List.filterMap_cons]
    cases hm : rxSearch tafWindRx (p.2.take 120) with
    | some m =>
      rw [ih]
      simp
    | none =>
      rw [ih]
      simp

theorem foldl_append_singleton {α : Type} (l init : List α) :
    l.foldl (fun out q => out ++ [q]) init = init ++ l := by
  induction l generalizing init with
  | nil => simp
  | cons a l ih =>
    simp only [List.foldl_cons]
    rw [ih]
    simp

/-! ## Claim theorems -/

/-- C1: `parse_metar_human` is total — it returns a record echoing its
input for every string (the only statement-level partiality of the
source, the `splitlines()[0]` index error on the empty string, is
absorbed by its `try`/`except`), and on the empty string and on text
with no recognizable tokens every decoded field of the returned record
is absent. -/
theorem parse_metar_human_total_allAbsent :
    (∀ raw : String, (parse_metar_human raw).raw = raw) ∧
    parse_metar_human "" =
      { time := none, wind := none, visibility := none, temp := none,
        dewpoint := none, qnh := none, clouds := none, raw := "" } ∧
    parse_metar_human "garbage text with no tokens" =
      { time := none, wind := none, visibility := none, temp := none,
        dewpoint := none, qnh := none, clouds := none,
        raw := "garbage text with no tokens" } := by
  refine ⟨?_, by decide, by decide⟩
  intro raw
  cases h : metar_first_line? raw <;> simp [parse_metar_human, h]

/-- C3: if the visibility pattern matches on the first line (extended
by a space, as the source searches `first + " "`), the matched group is
a `\d{1,2}SM` or 4-digit token occurring space-delimited in the line,
the value `9999` (or `10000` — the source's branch, though a matched
group is at most four characters long and hence never `10000`) is
rendered `10+ km` and every other matched value passes through
verbatim; a space-delimited visibility token in the line guarantees the
field is present; the example METAR with token `9999` yields `10+ km`. -/
theorem metar_visibility_normalized :
    (∀ (raw : String) (first m : List Char),
        metar_first_line? raw = some first →
        metarVisSearch first = some m →
        visTokenShape (visGroup m) ∧
        visGroup m ≠ ['1', '0', '0', '0', '0'] ∧
        (∃ pre post, first ++ [' '] = pre ++ [' '] ++ visGroup m ++ [' '] ++ post) ∧
        (parse_metar_human raw).visibility =
          some (if visGroup m = ['9', '9', '9', '9'] ∨ visGroup m = ['1', '0', '0', '0', '0']
            then "10+ km" else String.mk (visGroup m))) ∧
    (∀ (raw : String) (first pre g post : List Char),
        metar_first_line? raw = some first →
        first ++ [' '] = pre ++ [' '] ++ g ++ [' '] ++ post →
        visTokenShape g →
        (parse_metar_human raw).visibility.isSome) ∧
    (parse_metar_human "UAAA 010600Z 18005KT 9999 FEW020 22/14 Q1015").visibility =
      some "10+ km" := by
  refine ⟨?_, ?_, by decide⟩
  · intro raw first m h hs
    rcases rxSearch_some_mem hs with ⟨pre, tail, rest, hsplit, hmem⟩
    rcases mem_metarVisRx.mp hmem with ⟨g, hg, hm1, htail⟩
    have hm : m = ' ' :: (g ++ [' ']) := hm1
    have htail' : tail = m ++ rest := htail
    have hvg : visGroup m = g := by rw [hm]; exact visGroup_eq g
    refine ⟨by rw [hvg]; exact hg, ?_, ?_, ?_⟩
    · rw [hvg]
      intro hgeq
      have hle := visTokenShape_length_le hg
      rw [hgeq] at hle
      exact absurd hle (by decide)
    · refine ⟨pre, rest, ?_⟩
      rw [hsplit, htail', hvg, hm]
      simp
    · simp [parse_metar_human, h, hs]
  · intro raw first pre g post h hsplit hg
    have hne : metarVisRx ([' '] ++ g ++ [' '] ++ post) ≠ [] := by
      apply List.ne_nil_of_mem (a := (' ' :: (g ++ [' ']), post))
      exact mem_metarVisRx.mpr ⟨g, hg, rfl, by simp⟩
    have hsome := rxSearch_isSome_append metarVisRx pre ([' '] ++ g ++ [' '] ++ post) hne
    have heq : pre ++ ([' '] ++ g ++ [' '] ++ post) = first ++ [' '] := by
      rw [hsplit]; simp
    rw [heq] at hsome
    have hvs : (metarVisSearch first).isSome := hsome
    rcases Option.isSome_iff_exists.mp hvs with ⟨m, hm⟩
    simp [parse_metar_human, h, hm]

/-- Witness for C3: a line containing the space-delimited token `9999`
has a present visibility field (by the completeness conjunct of
`metar_visibility_normalized`). -/
theorem metar_visibility_normalized_witness :
    (parse_metar_human "UAAA 9999 RMK").visibility.isSome :=
  metar_visibility_normalized.2.1 "UAAA 9999 RMK" "UAAA 9999 RMK".data
    "UAAA".data ['9', '9', '9', '9'] "RMK ".data (by decide) (by decide)
    (Or.inr ⟨by decide, by decide⟩)

theorem digit_ne_M {c : Char} (h : c.isDigit) : c ≠ 'M' := by
  intro he; subst he; exact absurd h (by decide)

theorem digit_ne_minus {c : Char} (h : c.isDigit) : c ≠ '-' := by
  intro he; subst he; exact absurd h (by decide)

/-- Replacing the leading `M` of an `M?\d{2}` group by `-` produces a
string denoting the signed value that negates the digits after an `M`
and keeps a plain two-digit group nonnegative. -/
theorem signedVal_replaceM {t : List Char} (h : signedTwoShape t) :
    signedVal (replaceM t) = mVal t := by
  rcases h with ⟨a, b, ha, hb, ht | ht⟩ <;> subst ht
  · simp [replaceM, signedVal, mVal, digit_ne_M ha, digit_ne_M hb,
      digit_ne_minus ha]
  · simp [replaceM, signedVal, mVal, digit_ne_M ha, digit_ne_M hb]

/-- C4: if the temperature/dewpoint pattern matches on the first line,
the match is a space-preceded `{M?2-digit}/{M?2-digit}` token of the
line and both fields are returned with the leading `M` (if any)
replaced by a minus sign, so that they denote the signed values; a
token of that shape in the line guarantees both fields are present; the
example with `M05/M10` yields temperature `-05` (value −5), dewpoint
`-10` (value −10), and a wind rendered from direction `VRB`. -/
theorem metar_temp_dewpoint_signed :
    (∀ (raw : String) (first m : List Char),
        metar_first_line? raw = some first →
        metarTempSearch first = some m →
        signedTwoShape (tempGroup1 m) ∧ signedTwoShape (tempGroup2 m) ∧
        (∃ pre post,
          first = pre ++ [' '] ++ tempGroup1 m ++ ['/'] ++ tempGroup2 m ++ post) ∧
        (parse_metar_human raw).temp = some (String.mk (replaceM (tempGroup1 m))) ∧
        (parse_metar_human raw).dewpoint = some (String.mk (replaceM (tempGroup2 m))) ∧
        signedVal (replaceM (tempGroup1 m)) = mVal (tempGroup1 m) ∧
        signedVal (replaceM (tempGroup2 m)) = mVal (tempGroup2 m)) ∧
    (∀ (raw : String) (first pre t d post : List Char),
        metar_first_line? raw = some first →
        first = pre ++ [' '] ++ t ++ ['/'] ++ d ++ post →
        signedTwoShape t → signedTwoShape d →
        (parse_metar_human raw).temp.isSome ∧
        (parse_metar_human raw).dewpoint.isSome) ∧
    ((parse_metar_human "UAAA 010600Z VRB02KT M05/M10 Q0998").temp = some "-05" ∧
     (parse_metar_human "UAAA 010600Z VRB02KT M05/M10 Q0998").dewpoint = some "-10" ∧
     (parse_metar_human "UAAA 010600Z VRB02KT M05/M10 Q0998").temp.map
        (fun s => signedVal s.data) = some (-5) ∧
     (parse_metar_human "UAAA 010600Z VRB02KT M05/M10 Q0998").dewpoint.map
        (fun s => signedVal s.data) = some (-10) ∧
     (parse_metar_human "UAAA 010600Z VRB02KT M05/M10 Q0998").wind =
        some "VRB° 2 kt") := by
  refine ⟨?_, ?_, by decide, by decide, by decide, by decide, by decide⟩
  · intro raw first m h hs
    rcases rxSearch_some_mem hs with ⟨pre, tail, rest, hsplit, hmem⟩
    rcases mem_metarTempRx.mp hmem with ⟨t, d, hts, hds, hm1, htail⟩
    have hm : m = ' ' :: (t ++ '/' :: d) := hm1
    have htail' : tail = m ++ rest := htail
    have hne := signedTwoShape_ne_slash hts
    have hg1 : tempGroup1 m = t := by rw [hm]; exact tempGroup1_eq hne
    have hg2 : tempGroup2 m = d := by rw [hm]; exact tempGroup2_eq hne
    refine ⟨by rw [hg1]; exact hts, by rw [hg2]; exact hds, ?_, ?_, ?_, ?_, ?_⟩
    · refine ⟨pre, rest, ?_⟩
      rw [hsplit, htail', hg1, hg2, hm]
      simp
    · simp [parse_metar_human, h, hs]
    · simp [parse_metar_human, h, hs]
    · rw [hg1]; exact signedVal_replaceM hts
    · rw [hg2]; exact signedVal_replaceM hds
  · intro raw first pre t d post h hsplit hts hds
    have hne : metarTempRx ([' '] ++ t ++ ['/'] ++ d ++ post) ≠ [] := by
      apply List.ne_nil_of_mem (a := (' ' :: (t ++ '/' :: d), post))
      exact mem_metarTempRx.mpr ⟨t, d, hts, hds, rfl, by simp⟩
    have hsome := rxSearch_isSome_append metarTempRx pre
      ([' '] ++ t ++ ['/'] ++ d ++ post) hne
    have heq : pre ++ ([' '] ++ t ++ ['/'] ++ d ++ post) = first := by
      rw [hsplit]; simp
    rw [heq] at hsome
    have hvs : (metarTempSearch first).isSome := hsome
    rcases Option.isSome_iff_exists.mp hvs with ⟨m, hm⟩
    constructor <;> simp [parse_metar_human, h, hm]

/-- Witness for C4: a line containing the space-preceded token
`M05/M10` has present temperature and dewpoint fields (by the
completeness conjunct of `metar_temp_dewpoint_signed`). -/
theorem metar_temp_dewpoint_signed_witness :
    (parse_metar_human "UAAA M05/M10").temp.isSome ∧
    (parse_metar_human "UAAA M05/M10").dewpoint.isSome :=
  metar_temp_dewpoint_signed.2.1 "UAAA M05/M10" "UAAA M05/M10".data
    "UAAA".data ['M', '0', '5'] ['M', '1', '0'] [] (by decide) (by decide)
    ⟨'0', '5', by decide, by decide, Or.inr rfl⟩
    ⟨'1', '0', by decide, by decide, Or.inr rfl⟩

theorem lookup_cacheErase_self (c : Cache) (k : String) :
    List.lookup k (cacheErase c k) = none := by
  induction c with
  | nil => rfl
  | cons e c ih =>
    obtain ⟨k', r⟩ := e
    by_cases he : k' = k
    · subst he
      simpa [cacheErase, List.filter] using ih
    · have hb : (k' != k) = true := bne_iff_ne.mpr he
      have hb' : (k == k') = false := by
        simp only [beq_eq_false_iff_ne, ne_eq]
        exact fun hk => he hk.symm
      simp only [cacheErase, List.filter, hb, if_true] at ih ⊢
      simpa [List.lookup, hb'] using ih

/-- C2: after `cache_set c t k v`, a `cache_get` at time `tg` returns
`v` exactly while `tg - t < CACHE_TTL`; once the TTL has elapsed the
`get` returns absent and evicts the entry (the key is absent from the
resulting state), and a subsequent `cache_set` succeeds as a fresh
insert carrying the new timestamp. -/
theorem cache_ttl_behavior :
    ∀ (c : Cache) (k v v' : String) (t tg ts : Int),
      (tg - t < CACHE_TTL → (cache_get (cache_set c t k v) tg k).1 = some v) ∧
      (CACHE_TTL ≤ tg - t →
        (cache_get (cache_set c t k v) tg k).1 = none ∧
        List.lookup k (cache_get (cache_set c t k v) tg k).2 = none) ∧
      (List.lookup k (cache_set (cache_get (cache_set c t k v) tg k).2 ts k v') =
        some (ts, v')) := by
  intro c k v v' t tg ts
  have hset : List.lookup k (cache_set c t k v) = some (t, v) := by
    simp [cache_set, List.lookup]
  refine ⟨?_, ?_, ?_⟩
  · intro hlt
    simp [cache_get, hset, hlt]
  · intro hge
    have hnlt : ¬ (tg - t < CACHE_TTL) := not_lt.mpr hge
    refine ⟨by simp [cache_get, hset, hnlt], ?_⟩
    simp only [cache_get, hset, hnlt, if_false]
    exact lookup_cacheErase_self _ k
  · simp [cache_set, List.lookup]

/-- Witness for C2 at a concrete run: insert at time 0, read back at
time 0, expire at time 300, re-insert at time 301. -/
theorem cache_ttl_behavior_witness :
    (cache_get (cache_set [] 0 "k" "v") 0 "k").1 = some "v" ∧
    (cache_get (cache_set [] 0 "k" "v") 300 "k").1 = none ∧
    List.lookup "k" (cache_set (cache_get (cache_set [] 0 "k" "v") 300 "k").2
      301 "k" "w") = some (301, "w") :=
  ⟨(cache_ttl_behavior [] "k" "v" "w" 0 0 301).1 (by decide),
   ((cache_ttl_behavior [] "k" "v" "w" 0 300 301).2.1 (by decide)).1,
   (cache_ttl_behavior [] "k" "v" "w" 0 300 301).2.2⟩

theorem taf_filter_max (taf : String) :
    (taf_temp_extremes taf).filter (fun p => decide (p.1 = TempKind.max)) =
      ((txTokens taf).take 8).map (fun s => (TempKind.max, mVal s)) := by
  rw [taf_temp_extremes, List.filter_append]
  have h1 : List.filter (fun p => decide (p.1 = TempKind.max))
      (((txTokens taf).take 8).map (fun s => (TempKind.max, mVal s)))
      = ((txTokens taf).take 8).map (fun s => (TempKind.max, mVal s)) := by
    rw [List.filter_eq_self]
    intro a ha
    rcases List.mem_map.mp ha with ⟨s, _, rfl⟩
    simp
  have h2 : List.filter (fun p => decide (p.1 = TempKind.max))
      (((tnTokens taf).take 8).map (fun s => (TempKind.min, mVal s))) = [] := by
    rw [List.filter_eq_nil_iff]
    intro a ha
    rcases List.mem_map.mp ha with ⟨s, _, rfl⟩
    simp
  rw [h1, h2, List.append_nil]

theorem taf_filter_min (taf : String) :
    (taf_temp_extremes taf).filter (fun p => decide (p.1 = TempKind.min)) =
      ((tnTokens taf).take 8).map (fun s => (TempKind.min, mVal s)) := by
  rw [taf_temp_extremes, List.filter_append]
  have h1 : List.filter (fun p => decide (p.1 = TempKind.min))
      (((txTokens taf).take 8).map (fun s => (TempKind.max, mVal s))) = [] := by
    rw [List.filter_eq_nil_iff]
    intro a ha
    rcases List.mem_map.mp ha with ⟨s, _, rfl⟩
    simp
  have h2 : List.filter (fun p => decide (p.1 = TempKind.min))
      (((tnTokens taf).take 8).map (fun s => (TempKind.min, mVal s)))
      = ((tnTokens taf).take 8).map (fun s => (TempKind.min, mVal s)) := by
    rw [List.filter_eq_self]
    intro a ha
    rcases List.mem_map.mp ha with ⟨s, _, rfl⟩
    simp
  rw [h1, h2, List.nil_append]

theorem txTokens_occurs {taf : String} {s : List Char} (h : s ∈ txTokens taf) :
    extremeGroupShape s ∧ ∃ pre post, taf.data = pre ++ ('T' :: 'X' :: s) ++ post := by
  rcases List.mem_map.mp h with ⟨w, hw, rfl⟩
  rcases List.mem_map.mp hw with ⟨q, hq, rfl⟩
  rcases rxFindItr_mem rxGood_txRx hq with ⟨pre, hsplit, hmem⟩
  rcases txRx_shape hmem with ⟨s', hs', hq1, _⟩
  rw [hq1]
  refine ⟨by simpa using hs', pre, q.2, ?_⟩
  rw [hsplit, hq1]
  simp

theorem tnTokens_occurs {taf : String} {s : List Char} (h : s ∈ tnTokens taf) :
    extremeGroupShape s ∧ ∃ pre post, taf.data = pre ++ ('T' :: 'N' :: s) ++ post := by
  rcases List.mem_map.mp h with ⟨w, hw, rfl⟩
  rcases List.mem_map.mp hw with ⟨q, hq, rfl⟩
  rcases rxFindItr_mem rxGood_tnRx hq with ⟨pre, hsplit, hmem⟩
  rcases tnRx_shape hmem with ⟨s', hs', hq1, _⟩
  rw [hq1]
  refine ⟨by simpa using hs', pre, q.2, ?_⟩
  rw [hsplit, hq1]
  simp

/-- Counterexample to C5 as stated: in `"TN05 TX10"` the `TN` token
occurs first in the text (position 0, before the `TX` token at
position 5), yet the extraction returns the `max` entry first — all
`TX` matches are emitted before all `TN` matches, so the result is not
in order of occurrence in the text. -/
theorem taf_temp_extremes_not_text_order :
    taf_temp_extremes "TN05 TX10" = [(TempKind.max, 10), (TempKind.min, 5)] ∧
    taf_temp_extremes "TN05 TX10" ≠ [(TempKind.min, 5), (TempKind.max, 10)] := by
  constructor <;> decide

/-- C5 (amended): the extraction scans independently for `TX{M?1-2
digit}` and `TN{M?1-2 digit}` tokens; the output is exactly the block
of all `TX` extremes tagged `max`, in scan order, followed by the
block of all `TN` extremes tagged `min`, in scan order (each kind
independently capped at eight — the two kinds are never interleaved by
text position); each kind's entries are recovered by filtering on its
tag; every extracted group is an `M?\d{1,2}` token occurring in the
text after a `TX`/`TN` head, and a leading `M` denotes a negative
value. -/
theorem taf_temp_extremes_by_kind :
    ∀ taf : String,
      (taf_temp_extremes taf =
        ((txTokens taf).take 8).map (fun s => (TempKind.max, mVal s)) ++
          ((tnTokens taf).take 8).map (fun s => (TempKind.min, mVal s))) ∧
      ((taf_temp_extremes taf).filter (fun p => decide (p.1 = TempKind.max)) =
        ((txTokens taf).take 8).map (fun s => (TempKind.max, mVal s))) ∧
      ((taf_temp_extremes taf).filter (fun p => decide (p.1 = TempKind.min)) =
        ((tnTokens taf).take 8).map (fun s => (TempKind.min, mVal s))) ∧
      (∀ s ∈ txTokens taf, extremeGroupShape s ∧
        ∃ pre post, taf.data = pre ++ ('T' :: 'X' :: s) ++ post) ∧
      (∀ s ∈ tnTokens taf, extremeGroupShape s ∧
        ∃ pre post, taf.data = pre ++ ('T' :: 'N' :: s) ++ post) ∧
      (∀ ds : List Char, mVal ('M' :: ds) = -(digitsVal ds : Int)) := by
  intro taf
  refine ⟨rfl, taf_filter_max taf, taf_filter_min taf, ?_, ?_, ?_⟩
  · intro s hs; exact txTokens_occurs hs
  · intro s hs; exact tnTokens_occurs hs
  · intro ds; simp [mVal]

/-- Witness for the amended C5: the single token of `"TXM03"` is the
group `M03`, of the documented shape, occurring after the `TX` head. -/
theorem taf_temp_extremes_by_kind_witness :
    extremeGroupShape ['M', '0', '3'] ∧
    ∃ pre post, "TXM03".data = pre ++ ('T' :: 'X' :: ['M', '0', '3']) ++ post :=
  (taf_temp_extremes_by_kind "TXM03").2.2.2.1 ['M', '0', '3'] (by decide)

/-- C10: the extraction keeps at most eight `max` entries and at most
eight `min` entries; the values kept of each kind are exactly the first
eight extracted groups of that kind, so every match beyond the eighth
of a kind is dropped. -/
theorem taf_temp_extremes_cap_eight :
    ∀ taf : String,
      ((taf_temp_extremes taf).filter (fun p => decide (p.1 = TempKind.max))).length ≤ 8 ∧
      ((taf_temp_extremes taf).filter (fun p => decide (p.1 = TempKind.min))).length ≤ 8 ∧
      (((taf_temp_extremes taf).filter
          (fun p => decide (p.1 = TempKind.max))).map Prod.snd =
        ((txTokens taf).map mVal).take 8) ∧
      (((taf_temp_extremes taf).filter
          (fun p => decide (p.1 = TempKind.min))).map Prod.snd =
        ((tnTokens taf).map mVal).take 8) := by
  intro taf
  refine ⟨?_, ?_, ?_, ?_⟩
  · rw [taf_filter_max]
    simp [List.length_take]
  · rw [taf_filter_min]
    simp [List.length_take]
  · rw [taf_filter_max, List.map_map, List.map_take]
    rfl
  · rw [taf_filter_min, List.map_map, List.map_take]
    rfl

/-- C6: `parse_taf_wind` consists of exactly one pair per
`\d{4}/\d{4}` validity window that has a wind-token match within the
120 characters of text immediately following it — the pair carries the
first (leftmost, backtracking-preferred) such match, and a window whose
120-character tail has no wind token contributes nothing — followed by
the pairs of the separate `FM` fallback loop.  Every scanned window is
a 4-digit/4-digit token occurring in the text, and every paired wind
token occurs inside the 120-character tail of its window. -/
theorem parse_taf_wind_windows :
    ∀ taf : String,
      (parse_taf_wind taf =
        (rxFindItr tafWindowRx taf.data).filterMap (fun p =>
          (rxSearch tafWindRx (p.2.take 120)).map
            (fun m => (String.mk p.1, String.mk m))) ++ fmFindItr taf.data) ∧
      (∀ p ∈ rxFindItr tafWindowRx taf.data,
        (∃ a b, a.length = 4 ∧ b.length = 4 ∧ (∀ c ∈ a, c.isDigit) ∧
          (∀ c ∈ b, c.isDigit) ∧ p.1 = a ++ '/' :: b) ∧
        (∃ pre, taf.data = pre ++ p.1 ++ p.2)) ∧
      (∀ p ∈ rxFindItr tafWindowRx taf.data, ∀ m : List Char,
        rxSearch tafWindRx (p.2.take 120) = some m →
        ∃ u w, p.2.take 120 = u ++ m ++ w) := by
  intro taf
  refine ⟨?_, ?_, ?_⟩
  · simp only [parse_taf_wind]
    rw [windowFold_eq, foldl_append_singleton]
    simp
  · intro p hp
    rcases rxFindItr_mem rxGood_tafWindowRx hp with ⟨pre, hsplit, hmem⟩
    rcases tafWindowRx_shape hmem with ⟨hwin, _⟩
    refine ⟨hwin, pre, ?_⟩
    rw [hsplit, List.append_assoc]
  · intro p _ m hm
    rcases rxSearch_some_mem hm with ⟨u, tail, rest, hsplit, hmem⟩
    have htail : tail = m ++ rest := rxGood_tafWindRx _ _ hmem
    exact ⟨u, rest, by rw [hsplit, htail, List.append_assoc]⟩

/-- Witness for C6: in `"0606/0712 18005KT"` the finditer scan yields
the window `0606/0712` with the following text as its tail, and the
window has the documented 4-digit/4-digit shape. -/
theorem parse_taf_wind_windows_witness :
    (∃ a b, a.length = 4 ∧ b.length = 4 ∧ (∀ c ∈ a, c.isDigit) ∧
      (∀ c ∈ b, c.isDigit) ∧
      ("0606/0712".data, " 18005KT".data).1 = a ++ '/' :: b) ∧
    (∃ pre, "0606/0712 18005KT".data =
      pre ++ ("0606/0712".data, " 18005KT".data).1 ++
        ("0606/0712".data, " 18005KT".data).2) :=
  (parse_taf_wind_windows "0606/0712 18005KT").2.1
    ("0606/0712".data, " 18005KT".data) (by decide)

/-! ## Geometry lemmas -/

theorem hav_a_symm (lat1 lon1 lat2 lon2 : ℝ) :
    hav_a lat1 lon1 lat2 lon2 = hav_a lat2 lon2 lat1 lon1 := by
  unfold hav_a
  have h1 : radians (lat1 - lat2) = -(radians (lat2 - lat1)) := by
    unfold radians; ring
  have h2 : radians (lon1 - lon2) = -(radians (lon2 - lon1)) := by
    unfold radians; ring
  rw [h1, h2, neg_div, Real.sin_neg, neg_div, Real.sin_neg]
  ring

theorem hav_a_self (lat lon : ℝ) : hav_a lat lon lat lon = 0 := by
  unfold hav_a radians
  simp

theorem haversine_self (lat lon : ℝ) : haversine_km lat lon lat lon = 0 := by
  unfold haversine_km
  rw [hav_a_self, Real.sqrt_zero, sub_zero, Real.sqrt_one]
  have h : pyAtan2 0 1 = 0 := by
    unfold pyAtan2
    rw [if_pos one_pos]
    simp
  rw [h]
  ring

/-- C8: `normalize_code_input` first strips and uppercases its input;
when the normalized input has length exactly three and the IATA→ICAO
map (whose values, as built by `load_airports`, are never empty) has an
entry for it, the mapped ICAO is returned; a three-character input not
in the map, and an input of any other length, is returned in its
normalized form; and any two inputs with the same normalized form —
in particular a lowercase and the corresponding uppercase spelling —
behave identically. -/
theorem normalize_code_input_spec :
    ∀ (iata_map : String → Option String) (q qn : String),
      (∀ k v, iata_map k = some v → v ≠ "") →
      qn = String.mk ((pyStrip q.data).map Char.toUpper) →
      ((qn.length = 3 → ∀ ic, iata_map qn = some ic →
          normalize_code_input iata_map q = ic) ∧
       (qn.length = 3 → iata_map qn = none →
          normalize_code_input iata_map q = qn) ∧
       (qn.length ≠ 3 → normalize_code_input iata_map q = qn) ∧
       (∀ q' : String,
          String.mk ((pyStrip q'.data).map Char.toUpper) = qn →
          normalize_code_input iata_map q' = normalize_code_input iata_map q)) := by
  intro iata_map q qn hvalid hqn
  subst hqn
  refine ⟨?_, ?_, ?_, ?_⟩
  · intro h3 ic hic
    simp only [normalize_code_input, h3, if_true, hic]
    simp [hvalid _ _ hic]
  · intro h3 hnone
    simp [normalize_code_input, h3, hnone]
  · intro h3
    have h3' : (pyStrip q.data).length ≠ 3 := by simpa using h3
    simp [normalize_code_input, h3']
  · intro q' hq'
    simp only [normalize_code_input]
    rw [hq']

/-- Witness for C8 with the map {ALA ↦ UAAA}: `"ALA"` and `"ala"` both
resolve to `"UAAA"`, and `"UAAA"` is returned unchanged. -/
theorem normalize_code_input_spec_witness :
    normalize_code_input (fun s => if s = "ALA" then some "UAAA" else none)
      "ALA" = "UAAA" ∧
    normalize_code_input (fun s => if s = "ALA" then some "UAAA" else none)
      "ala" = "UAAA" ∧
    normalize_code_input (fun s => if s = "ALA" then some "UAAA" else none)
      "UAAA" = "UAAA" := by
  have hvalid : ∀ k v,
      (fun s => if s = "ALA" then some "UAAA" else none) k = some v → v ≠ "" := by
    intro k v h
    by_cases hk : k = "ALA" <;> simp [hk] at h
    rw [← h]; decide
  refine ⟨?_, ?_, ?_⟩
  · exact (normalize_code_input_spec _ "ALA" _ hvalid rfl).1 (by decide)
      "UAAA" (by decide)
  · exact (normalize_code_input_spec _ "ala" _ hvalid rfl).1 (by decide)
      "UAAA" (by decide)
  · exact (normalize_code_input_spec _ "UAAA" _ hvalid rfl).2.2.1 (by decide)

/-- C9: the great-circle distance of `haversine_km` is symmetric in its
two (valid WGS84) coordinate pairs, and the distance from a point to
itself is zero. -/
theorem haversine_symm_and_self :
    ∀ lat1 lon1 lat2 lon2 : ℝ,
      -90 ≤ lat1 → lat1 ≤ 90 → -180 ≤ lon1 → lon1 ≤ 180 →
      -90 ≤ lat2 → lat2 ≤ 90 → -180 ≤ lon2 → lon2 ≤ 180 →
      haversine_km lat1 lon1 lat2 lon2 = haversine_km lat2 lon2 lat1 lon1 ∧
      haversine_km lat1 lon1 lat1 lon1 = 0 := by
  intro lat1 lon1 lat2 lon2 _ _ _ _ _ _ _ _
  refine ⟨?_, haversine_self _ _⟩
  unfold haversine_km
  rw [hav_a_symm]

/-- Witness for C9 at the coordinates (10, 20) and (30, 40). -/
theorem haversine_symm_and_self_witness :
    haversine_km 10 20 30 40 = haversine_km 30 40 10 20 ∧
    haversine_km 10 20 10 20 = 0 :=
  haversine_symm_and_self 10 20 30 40 (by norm_num) (by norm_num)
    (by norm_num) (by norm_num) (by norm_num) (by norm_num)
    (by norm_num) (by norm_num)

/-! ## Sorting lemmas for `find_nearby` -/

theorem rleb_iff {x y : ℝ} : rleb x y = true ↔ x ≤ y := by
  unfold rleb
  exact @decide_eq_true_iff _ (Classical.propDecidable _)

theorem reqb_iff {x y : ℝ} : reqb x y = true ↔ x = y := by
  unfold reqb
  exact @decide_eq_true_iff _ (Classical.propDecidable _)

theorem nearLe_trans : ∀ a b c : ℝ × Airport,
    rleb a.1 b.1 = true → rleb b.1 c.1 = true → rleb a.1 c.1 = true := by
  intro a b c hab hbc
  exact rleb_iff.mpr ((rleb_iff.mp hab).trans (rleb_iff.mp hbc))

theorem nearLe_total : ∀ a b : ℝ × Airport,
    (rleb a.1 b.1 || rleb b.1 a.1) = true := by
  intro a b
  rcases le_total a.1 b.1 with h | h
  · simp [rleb_iff.mpr h]
  · simp [rleb_iff.mpr h]

/-- Stability of the sort in `find_nearby`: the entries carrying any
fixed distance appear in the sorted list exactly as they appear, in
order, in the unsorted list. -/
theorem mergeSort_filter_key (out : List (ℝ × Airport)) (d0 : ℝ) :
    (out.mergeSort (fun p q => rleb p.1 q.1)).filter (fun p => reqb p.1 d0) =
      out.filter (fun p => reqb p.1 d0) := by
  have hc : (out.filter (fun p => reqb p.1 d0)).Pairwise
      (fun a b => (fun p q : ℝ × Airport => rleb p.1 q.1) a b = true) := by
    apply List.pairwise_of_forall_mem_list
    intro a ha b hb
    have ha1 : a.1 = d0 := reqb_iff.mp (List.mem_filter.mp ha).2
    have hb1 : b.1 = d0 := reqb_iff.mp (List.mem_filter.mp hb).2
    show rleb a.1 b.1 = true
    rw [rleb_iff, ha1, hb1]
  have hsub : (out.filter (fun p => reqb p.1 d0)).Sublist
      (out.mergeSort (fun p q => rleb p.1 q.1)) :=
    List.sublist_mergeSort nearLe_trans nearLe_total hc (List.filter_sublist out)
  have hself : (out.filter (fun p => reqb p.1 d0)).filter (fun p => reqb p.1 d0)
      = out.filter (fun p => reqb p.1 d0) :=
    List.filter_eq_self.mpr (fun a ha => (List.mem_filter.mp ha).2)
  have hsub2 : (out.filter (fun p => reqb p.1 d0)).Sublist
      ((out.mergeSort (fun p q => rleb p.1 q.1)).filter (fun p => reqb p.1 d0)) :=
    hself ▸ List.Sublist.filter (fun p => reqb p.1 d0) hsub
  have hlen : ((out.mergeSort (fun p q => rleb p.1 q.1)).filter
        (fun p => reqb p.1 d0)).length =
      (out.filter (fun p => reqb p.1 d0)).length :=
    (List.Perm.filter _ (List.mergeSort_perm out _)).length_eq
  exact (hsub2.eq_of_length hlen.symm).symm

theorem pySliceTo_sublist {α : Type} (n : Int) (l : List α) :
    (pySliceTo n l).Sublist l := by
  unfold pySliceTo
  split <;> exact List.take_sublist _ _

/-- C7 (amended): `find_nearby` annotates every loaded record with its
haversine distance; every returned entry is within the radius; the
result is sorted non-decreasing by distance; it is the prefix slice of
a stable sort of exactly the in-range annotated records (entries of
equal distance stay in original load order), and for a nonnegative
`max_results` it is truncated to at most `max_results` entries.  (For a
negative `max_results` the Python slice `out[:max_results]` instead
drops the last entries — see the counterexample.) -/
theorem find_nearby_spec :
    ∀ (airports : List Airport) (lat lon limit_km : ℝ) (max_results : Int),
      (∀ p ∈ find_nearby airports lat lon limit_km max_results, p.1 ≤ limit_km) ∧
      (find_nearby airports lat lon limit_km max_results).Pairwise
        (fun p q => p.1 ≤ q.1) ∧
      (∃ sorted : List (ℝ × Airport),
        sorted.Perm
          ((airports.map (fun a => (haversine_km lat lon a.lat a.lon, a))).filter
            (fun p => rleb p.1 limit_km)) ∧
        sorted.Pairwise (fun p q => p.1 ≤ q.1) ∧
        (∀ d0 : ℝ, sorted.filter (fun p => reqb p.1 d0) =
          ((airports.map (fun a => (haversine_km lat lon a.lat a.lon, a))).filter
            (fun p => rleb p.1 limit_km)).filter (fun p => reqb p.1 d0)) ∧
        find_nearby airports lat lon limit_km max_results =
          pySliceTo max_results sorted) ∧
      (0 ≤ max_results →
        (find_nearby airports lat lon limit_km max_results).length ≤
          max_results.toNat) := by
  intro airports lat lon limit_km max_results
  cases airports with
  | nil =>
    refine ⟨by simp [find_nearby], by simp [find_nearby], ⟨[], by simp, by simp, by simp, ?_⟩, ?_⟩
    · simp only [find_nearby]
      unfold pySliceTo
      split <;> simp
    · intro _
      simp [find_nearby]
  | cons a as =>
    have hout : find_nearby (a :: as) lat lon limit_km max_results =
        pySliceTo max_results
          ((((a :: as).map (fun a => (haversine_km lat lon a.lat a.lon, a))).filter
            (fun p => rleb p.1 limit_km)).mergeSort (fun p q => rleb p.1 q.1)) := by
      simp only [find_nearby]
    have hsortpw : ((((a :: as).map
          (fun a => (haversine_km lat lon a.lat a.lon, a))).filter
            (fun p => rleb p.1 limit_km)).mergeSort
              (fun p q => rleb p.1 q.1)).Pairwise (fun p q => p.1 ≤ q.1) :=
      (List.sorted_mergeSort nearLe_trans nearLe_total _).imp (fun h => rleb_iff.mp h)
    refine ⟨?_, ?_, ?_, ?_⟩
    · intro p hp
      rw [hout] at hp
      have hp2 := (pySliceTo_sublist _ _).mem hp
      have hp3 := (List.mergeSort_perm _ _).mem_iff.mp hp2
      exact rleb_iff.mp (List.mem_filter.mp hp3).2
    · rw [hout]
      exact List.Pairwise.sublist (pySliceTo_sublist _ _) hsortpw
    · exact ⟨_, List.mergeSort_perm _ _, hsortpw,
        fun d0 => mergeSort_filter_key _ d0, hout⟩
    · intro hn
      rw [hout]
      unfold pySliceTo
      rw [if_pos hn]
      exact List.length_take_le _ _

/-- Witness for C7: on the empty directory with `max_results = 5` the
result has at most five entries. -/
theorem find_nearby_spec_witness :
    (find_nearby [] 0 0 0 5).length ≤ (5 : Int).toNat :=
  (find_nearby_spec [] 0 0 0 5).2.2.2 (by decide)

/-- Counterexample to C7 as stated: `max_results` is a Python `int`,
and for `max_results = -1` the slice `out[:max_results]` does not
truncate to "at most max_results entries" — with two airports at the
query point, well inside the radius, the call returns one entry (the
slice drops only the last element), while the claimed bound `length ≤
-1` is unsatisfiable. -/
theorem find_nearby_negative_max_results :
    (find_nearby [apAlpha, apBravo] 0 0 10 (-1)).length = 1 ∧
    ¬ (((find_nearby [apAlpha, apBravo] 0 0 10 (-1)).length : Int) ≤ -1) := by
  have h1 : haversine_km 0 0 apAlpha.lat apAlpha.lon = 0 := haversine_self 0 0
  have h2 : haversine_km 0 0 apBravo.lat apBravo.lon = 0 := haversine_self 0 0
  have hf : rleb (0 : ℝ) 10 = true := rleb_iff.mpr (by norm_num)
  have h00 : rleb (0 : ℝ) 0 = true := rleb_iff.mpr le_rfl
  have hout : (([apAlpha, apBravo].map
      (fun a => (haversine_km 0 0 a.lat a.lon, a))).filter
        (fun p => rleb p.1 10)) = [(0, apAlpha), (0, apBravo)] := by
    simp only [List.map_cons, List.map_nil, h1, h2]
    simp [List.filter, hf]
  have hsorted : ([((0 : ℝ), apAlpha), ((0 : ℝ), apBravo)].mergeSort
      (fun p q => rleb p.1 q.1)) = [(0, apAlpha), (0, apBravo)] := by
    apply List.mergeSort_of_sorted
    simp [List.pairwise_cons, h00]
  have hres : find_nearby [apAlpha, apBravo] 0 0 10 (-1) = [((0 : ℝ), apAlpha)] := by
    simp only [find_nearby]
    rw [hout, hsorted]
    unfold pySliceTo
    rw [if_neg (by decide)]
    simp
  rw [hres]
  exact ⟨rfl, by decide⟩
